import Mathlib

/-!
Verification of the lhi HTTP/1.1 server engine (request framing/parsing and
response serialization), as a shallow embedding of the Rust sources
`src/server/conn.rs`, `src/server/request.rs` and `src/server/response.rs`.

Modelling conventions:
* Byte sequences (`Vec<u8>`, `&[u8]`) are `List Nat` (each element a byte value).
* Rust strings are modelled as lists of characters (`Str := List Char`).
  All inputs appearing in the claims are ASCII, where one `char` is one byte,
  so `&str` slicing/length, `as_bytes`, `from_utf8` and `String::from_utf8`
  coincide with the character-list view; `asciiEncode`/`asciiDecode` convert
  between the two views (exact on ASCII data).
* `BTreeMap<K, V>` is an association list kept sorted by key (`mapInsert`
  overwrites the value of an existing key, as `BTreeMap::insert` does), so
  that map equality is list equality and iteration order is ascending.
* The TLS `Stream` is a trace of read results: each `read` call pops the next
  chunk of the trace (the bytes that call returned).  A read with an empty
  trace means the code would block waiting for more data: the model returns
  a `diverged` result in that case.  Error-returning reads are not modelled.
-/

deriving instance DecidableEq for Except

/-- Rust string slices, modelled as character lists (exact for ASCII data). -/
abbrev Str := List Char

/-- UTF-8 bytes of an ASCII character list (`str::as_bytes`). -/
def asciiEncode (s : Str) : List Nat :=
  s.map Char.toNat

/-- Byte list of an ASCII string literal. -/
def strBytes (s : String) : List Nat :=
  asciiEncode s.data

/-- ASCII fragment of `str::from_utf8` / `String::from_utf8`: succeeds exactly
on ASCII byte lists (all claims only exercise ASCII data). -/
def asciiDecode : List Nat → Option Str
  | [] => some []
  | n :: t =>
    if n < 128 then
      match asciiDecode t with
      | some s => some (Char.ofNat n :: s)
      | none => none
    else none

/-- Comparison of characters by code point, as Rust compares bytes. -/
def cmpChar (a b : Char) : Ordering :=
  compare a.toNat b.toNat

/-- Lexicographic comparison of strings (Rust `Ord for str` on ASCII). -/
def cmpStr : Str → Str → Ordering
  | [], [] => .eq
  | [], _ :: _ => .lt
  | _ :: _, [] => .gt
  | x :: xs, y :: ys =>
    match cmpChar x y with
    | .eq => cmpStr xs ys
    | o => o

/-- `BTreeMap::insert` on a key-sorted association list: keeps the list
sorted and overwrites the value stored under an existing key. -/
def mapInsert {α : Type} (k : Str) (v : α) : List (Str × α) → List (Str × α)
  | [] => [(k, v)]
  | (k', v') :: t =>
    match cmpStr k k' with
    | .lt => (k, v) :: (k', v') :: t
    | .eq => (k, v) :: t
    | .gt => (k', v') :: mapInsert k v t

/-- `BTreeMap::get`. -/
def mapGet {α : Type} (m : List (Str × α)) (k : Str) : Option α :=
  match m.find? (fun kv => kv.1 == k) with
  | some kv => some kv.2
  | none => none

/-- Rust `str::split(c)`: splits on every occurrence of the character,
never returns an empty list. -/
def splitChar (c : Char) : Str → List Str
  | [] => [[]]
  | x :: t =>
    if x = c then
      [] :: splitChar c t
    else
      match splitChar c t with
      | [] => [[x]]
      | s :: ss => (x :: s) :: ss

/-- Rust `str::splitn(n, c)`: at most `n` pieces, the last piece keeps the
remaining separators. -/
def splitnChar (n : Nat) (c : Char) (s : Str) : List Str :=
  let parts := splitChar c s
  if parts.length ≤ n then parts
  else parts.take (n - 1) ++ [List.intercalate [c] (parts.drop (n - 1))]

/-- Index of the first occurrence of `sep` as a contiguous sublist of `s`. -/
def findSubIdx (sep : Str) : Str → Option Nat
  | [] => if sep = [] then some 0 else none
  | x :: t =>
    if sep.isPrefixOf (x :: t) then some 0
    else (findSubIdx sep t).map (· + 1)

/-- Fuel-driven worker for `splitSub`. -/
def splitSubF (sep : Str) : Nat → Str → List Str
  | 0, s => [s]
  | fuel + 1, s =>
    match findSubIdx sep s with
    | none => [s]
    | some i => s.take i :: splitSubF sep fuel (s.drop (i + sep.length))

/-- Rust `str::split(sep)` with a (non-empty) string pattern: splits on
leftmost non-overlapping occurrences. -/
def splitSub (sep s : Str) : List Str :=
  splitSubF sep (s.length + 1) s

/-- Rust `str::splitn(n, sep)` with a string pattern. -/
def splitnSub (n : Nat) (sep s : Str) : List Str :=
  let parts := splitSub sep s
  if parts.length ≤ n then parts
  else parts.take (n - 1) ++ [List.intercalate sep (parts.drop (n - 1))]

/-- Strip one trailing carriage return (used by `linesOf`). -/
def stripCr (s : Str) : Str :=
  if s.getLast? = some '\r' then s.dropLast else s

/-- Rust `str::lines()`: split on newlines, drop a final empty piece
produced by a trailing newline, strip one `\r` from each line. -/
def linesOf (s : Str) : List Str :=
  match s with
  | [] => []
  | _ =>
    let parts := splitChar '\n' s
    let parts := if s.getLast? = some '\n' then parts.dropLast else parts
    parts.map stripCr

/-- Rust `str::trim()` (ASCII whitespace suffices for the claims). -/
def trimStr (s : Str) : Str :=
  ((s.dropWhile Char.isWhitespace).reverse.dropWhile Char.isWhitespace).reverse

/-- Rust `str::to_lowercase()` (ASCII). -/
def toLowerStr (s : Str) : Str :=
  s.map Char.toLower

/-!
Request parsing: shallow embedding of `src/server/request.rs`.
-/

/-- HTTP request method (request.rs lines 10-14). -/
inductive HttpMethod
  | GET
  | POST
deriving DecidableEq

/-- HTTP request structure (request.rs lines 17-25). -/
structure HttpRequestL where
  method : HttpMethod
  url : Str
  headers : List (Str × Str)
  get : List (Str × Str)
  post : List (Str × Str)
  body : List Nat
deriving DecidableEq

/-- Worker of `parse_parameters` (request.rs lines 284-299): the `for` loop
over the `&`-separated segments, inserting each `key=value` pair. -/
def parseParametersGo (params : List (Str × Str)) : List Str → Except String (List (Str × Str))
  | [] => .ok params
  | p :: t =>
    match splitnChar 2 '=' p with
    | [] => .error "broken x-www-form-urlencoded parameters"
    | key :: rest =>
      let value := match rest with
        | v :: _ => trimStr v
        | [] => []
      parseParametersGo (mapInsert (toLowerStr (trimStr key)) value params) t

/-- `parse_parameters` (request.rs lines 276-303).  The source is generic in
a `process_value` function instantiated only with identities (`|v| v` and
`|v| v.to_string()`), so the model is monomorphic. -/
def parse_parameters (raw : Str) : Except String (List (Str × Str)) :=
  parseParametersGo [] (splitChar '&' raw)

/-- The `find_map` scan of `parse_post` over the `;`-separated pieces of the
content-type header (request.rs lines 185-194): records the first
non-`boundary=` piece as the media type and stops at the first piece starting
with `boundary=`, whose `split('=').nth(1)` part is the boundary. -/
def findCtBoundary (ct : Option Str) : List Str → Option Str × Option Str
  | [] => (ct, none)
  | s :: t =>
    if "boundary=".data.isPrefixOf s then
      match (splitChar '=' s).get? 1 with
      | some b => (ct, some b)
      | none => findCtBoundary ct t
    else
      findCtBoundary (if ct.isNone then some s else ct) t

/-- The `find_map` of `parse_post_upload` extracting `name="..."` from a
Content-Disposition line's `;`-separated pieces (request.rs lines 236-245);
the quotes are stripped by the `[1..len-1]` slice. -/
def findName : List Str → Option Str
  | [] => none
  | s :: t =>
    if "name=".data.isPrefixOf s then
      match (splitChar '=' s).get? 1 with
      | some n => some ((n.drop 1).dropLast)
      | none => findName t
    else
      findName t

/-- Value extraction from the data part of a multipart section
(request.rs lines 250-265): re-join a spurious `\r\n` split. -/
def ppuValue (data_section : Str) : Except String Str :=
  match splitnSub 2 "\r\n".data data_section with
  | [] => .error "broken section in post body"
  | [d0] => .ok d0
  | d0 :: d1 :: _ =>
    .ok (if d0 = [] then d1 else if d1 = [] then d0 else d0 ++ "\r\n".data ++ d1)

/-- The `for` loop of `parse_post_upload` over the boundary-separated
sections (request.rs lines 218-269). -/
def parsePostUploadGo (boundary : Str) (params : List (Str × Str)) :
    List Str → Except String (List (Str × Str))
  | [] => .ok params
  | section0 :: t =>
    let last_sep := "--".data ++ boundary ++ "--\r\n".data
    let section1 :=
      if last_sep.isSuffixOf section0 then
        section0.take (section0.length - last_sep.length - 2)
      else section0
    match splitnSub 3 "\r\n".data section1 with
    | [] => .error "broken section in post body"
    | l0 :: rest1 =>
      match findName ((splitChar ';' l0).map trimStr) with
      | none => .error "missing name in post body section"
      | some name =>
        match rest1 with
        | [] => .error "broken section in post body"
        | _l1 :: rest2 =>
          match rest2 with
          | [] => .error "broken section in post body"
          | l2 :: _ =>
            match ppuValue l2 with
            | .error e => .error e
            | .ok value => parsePostUploadGo boundary (mapInsert (toLowerStr name) value params) t

/-- `parse_post_upload` (request.rs lines 214-273): split the body on
`--{boundary}\r\n`, discard the preamble, strip the closing delimiter from
the final section, and decode each section. -/
def parse_post_upload (body : Str) (boundary : Str) : Except String (List (Str × Str)) :=
  parsePostUploadGo boundary [] ((splitSub ("--".data ++ boundary ++ "\r\n".data) body).drop 1)

/-- `parse_post` (request.rs lines 179-211). -/
def parse_post (headers : List (Str × Str)) (body : Str) : Except String (List (Str × Str)) :=
  match mapGet headers "content-type".data with
  | some content_type_header =>
    let segs := (splitChar ';' content_type_header).map trimStr
    match findCtBoundary none segs with
    | (some content_type, boundary) =>
      if content_type = "multipart/form-data".data then
        match boundary with
        | some b => parse_post_upload body b
        | none => .error "post upload, but no boundary"
      else parse_parameters body
    | (none, _) => parse_parameters body
  | none => parse_parameters body

/-- HTTP server settings (mod.rs lines 25-32). -/
structure HttpSettingsL where
  max_header_size : Nat
  max_body_size : Nat
  header_buffer : Nat
  body_buffer : Nat
  header_read_attempts : Nat
  body_read_attempts : Nat
deriving DecidableEq

/-- `HttpSettings::new` default values (mod.rs lines 36-45). -/
def HttpSettingsL.new : HttpSettingsL :=
  ⟨8192, 10485760, 8192, 8192, 3, 3⟩

/-- Outcome of the body-reading loop: the materialized body, a failure, or a
blocked read (the read-result trace is exhausted while more data is needed). -/
inductive BodyResult
  | ok (b : List Nat)
  | fail (msg : String)
  | diverged
deriving DecidableEq

/-- The body-reading loop of `HttpRequest::from` (request.rs lines 135-155):
read chunks of up to `body_buffer` bytes until the accumulated body reaches
the declared content length; every read shorter than the buffer counts one
stall, and more than `body_read_attempts` stalls is a failure.  Each trace
element is the byte list one `read` call returned (`rest_body.truncate`
keeps exactly those bytes). -/
def readBody (hs : HttpSettingsL) (raw_body : List Nat) (con_len : Nat)
    (read_fails : Nat) : List (List Nat) → BodyResult
  | [] =>
    if raw_body.length < con_len then .diverged else .ok raw_body
  | chunk :: t =>
    if raw_body.length < con_len then
      let length := min chunk.length hs.body_buffer
      let raw' := raw_body ++ chunk.take hs.body_buffer
      if length < hs.body_buffer then
        if read_fails + 1 > hs.body_read_attempts then .fail "Read body failed too often"
        else readBody hs raw' con_len (read_fails + 1) t
      else readBody hs raw' con_len read_fails t
    else .ok raw_body

/-- Rust `str::parse::<usize>()` on the claims' inputs: a non-empty digit
string (the model leaves out the `+` sign form and the overflow bound). -/
def parseUsize (s : Str) : Option Nat :=
  if s ≠ [] ∧ s.all Char.isDigit then
    some (s.foldl (fun acc c => acc * 10 + (c.toNat - 48)) 0)
  else none

/-- Content-length lookup and body phase of `HttpRequest::from`
(request.rs lines 113-159): without a content-length header the body stays
empty (any leftover bytes are dropped); otherwise the declared length is
parsed, checked against `max_body_size`, and the body read in. -/
def bodyPhase (hs : HttpSettingsL) (buf_len : Option Str) (raw_body : List Nat)
    (stream : List (List Nat)) : BodyResult :=
  match buf_len with
  | none => .ok []
  | some v =>
    match parseUsize v with
    | none => .fail "Content-Length is not of type usize"
    | some con_len =>
      if con_len > hs.max_body_size then .fail "Max body size exceeded"
      else readBody hs raw_body con_len 0 stream

/-- Result of `HttpRequest::from`. -/
inductive ParseResult
  | ok (r : HttpRequestL)
  | fail (msg : String)
  | diverged
deriving DecidableEq

/-- URL/query split of the second request-line token (request.rs lines
90-102): `splitn(2, '?')`; a missing token defaults the URL to `/`.
The `None` result models the dead `No URL in header` branch. -/
def urlSplit (rest : List Str) : Option (Str × Str) :=
  match rest with
  | [] => some ("/".data, [])
  | full_url :: _ =>
    match splitnChar 2 '?' full_url with
    | [] => none
    | url :: q => some (url, match q with | v :: _ => v | [] => [])

/-- The header-field loop of `HttpRequest::from` (request.rs lines 105-111):
split each line once on `:`, lowercase and trim the key, trim the value,
skip lines without a colon; later duplicates overwrite. -/
def parseHeaderLines (heads : List (Str × Str)) : List Str → List (Str × Str)
  | [] => heads
  | hl :: t =>
    match splitnChar 2 ':' hl with
    | key :: value :: _ => parseHeaderLines (mapInsert (toLowerStr (trimStr key)) (trimStr value) heads) t
    | _ => parseHeaderLines heads t

/-- `HttpRequest::from` (request.rs lines 65-175), with the `Stream` replaced
by the trace of body-read results.  Note the dead `headers.get("Content-Length")`
lookup (keys are lowercased on insertion) and that `parse_post` runs for GET
requests as well. -/
def HttpRequestL.fromRaw (raw_header : Str) (raw_body : List Nat)
    (stream : List (List Nat)) (hs : HttpSettingsL) : ParseResult :=
  match linesOf raw_header with
  | [] => .fail "Empty header"
  | reqline :: headerLines =>
    match splitChar ' ' reqline with
    | [] => .fail "No method in header"
    | methodTok :: restTok =>
      let method := if methodTok = "POST".data then HttpMethod.POST else HttpMethod.GET
      match urlSplit restTok with
      | none => .fail "No URL in header"
      | some (url, get_raw) =>
        let headers := parseHeaderLines [] headerLines
        let buf_len :=
          match mapGet headers "Content-Length".data with
          | some v => some v
          | none => mapGet headers "content-length".data
        match bodyPhase hs buf_len raw_body stream with
        | .fail m => .fail m
        | .diverged => .diverged
        | .ok body =>
          match parse_parameters get_raw with
          | .error e => .fail e
          | .ok get =>
            let body_utf8 := (asciiDecode body).getD []
            match parse_post headers body_utf8 with
            | .error e => .fail e
            | .ok post => .ok ⟨method, url, headers, get, post, body⟩

/-!
Response building: shallow embedding of `src/server/response.rs`.
-/

/-- Response content wrapper (response.rs lines 7-12). -/
inductive ResponseContent
  | Text (s : Str)
  | Byte (b : List Nat)
  | StaticText (s : Str)
  | StaticByte (b : List Nat)
deriving DecidableEq

/-- Additional response data (response.rs lines 16-19); `headers` lists the
`BTreeMap` entries in ascending key order. -/
structure ResponseData where
  status : Str
  headers : List (Str × Str)
deriving DecidableEq

/-- `ResponseData::new` (response.rs lines 23-28). -/
def ResponseData.new : ResponseData :=
  ⟨"200 OK".data, []⟩

/-- `ResponseData::set_status` (response.rs lines 31-34). -/
def ResponseData.set_status (d : ResponseData) (status : Str) : ResponseData :=
  { d with status := status }

/-- Payload bytes of a `ResponseContent` (the `content` slice each arm of
`respond`'s match binds, response.rs lines 58-78). -/
def contentBytes : ResponseContent → List Nat
  | .Text s => asciiEncode s
  | .Byte b => b
  | .StaticText s => asciiEncode s
  | .StaticByte b => b

/-- `set_content_length` (response.rs lines 86-93): the content-length header
bytes, with the `+ 2` offset for the trailing `\r\n`. -/
def set_content_length (content_length : Nat) : List Nat :=
  strBytes "\r\n" ++ strBytes "content-length: " ++
    strBytes (toString (content_length + 2)) ++ strBytes "\r\n\r\n"

/-- The caller-header block of `respond` (response.rs lines 41-47): each map
entry rendered as `\r\nkey: value`, in map (ascending key) order. -/
def respondHeaders (headers : List (Str × Str)) : Str :=
  headers.foldl (fun acc kv => acc ++ "\r\n".data ++ kv.1 ++ ": ".data ++ kv.2) []

/-- `respond` (response.rs lines 38-83).  Note the local
`let status = "200 OK"` that shadows any caller-supplied `data.status`:
the formatted status line always uses the local string. -/
def respond (content : ResponseContent) (content_type : Str) (data : ResponseData) : List Nat :=
  let status := "200 OK".data
  let headers := respondHeaders data.headers
  let response := asciiEncode
    ("HTTP/1.1 ".data ++ status ++ "\r\nserver: ltheinrich.de/lhi\r\ncontent-type: ".data ++
      content_type ++ "; charset=utf-8".data ++ headers)
  let response := response ++
    (match content with
     | .Text text => set_content_length (asciiEncode text).length ++ asciiEncode text
     | .Byte byte => set_content_length byte.length ++ byte
     | .StaticText text => set_content_length (asciiEncode text).length ++ asciiEncode text
     | .StaticByte b => set_content_length b.length ++ b)
  response ++ strBytes "\r\n"

/-!
Header framing: shallow embedding of `read_header` in `src/server/conn.rs`.
-/

/-- Outcome of scanning one chunk for the `\r\n\r\n` marker: the inner `for`
loop of `read_header` (conn.rs lines 87-111). -/
inductive ScanResult
  | found (i : Nat)
  | straddle (i : Nat)
  | nomark
deriving DecidableEq

/-- The byte scan of one chunk (conn.rs lines 87-111), recursing over the
not-yet-scanned suffix with `i` the absolute index of its head.  At each `\r`:
if fewer than 3 bytes follow in the chunk (`buf.len() < i + 4` in the source),
the marker window runs past the chunk end (`straddle`, the code issues a
supplementary short read); otherwise the window is checked in place (`found`
on a match).  If the loop finishes, the chunk carries no detected marker
(`nomark`, the caller appends the whole chunk). -/
def scanChunkGo (i : Nat) : List Nat → ScanResult
  | [] => .nomark
  | c :: rest =>
    if c = 13 then
      match rest with
      | n1 :: n2 :: n3 :: _ =>
        if n1 = 10 ∧ n2 = 13 ∧ n3 = 10 then .found i
        else scanChunkGo (i+1) rest
      | _ => .straddle i
    else scanChunkGo (i+1) rest

/-- Scan a whole chunk from index 0. -/
def scanChunk (buf : List Nat) : ScanResult :=
  scanChunkGo 0 buf

/-- Outcome of the framing loop: header and leftover bytes, a failure, or a
read on an exhausted trace (the code would block). -/
inductive FramerResult
  | ok (header rest : List Nat)
  | fail (msg : String)
  | diverged
deriving DecidableEq

/-- The `'l` loop of `read_header` (conn.rs lines 81-112) over the trace of
read results, paired with a ghost flag recording that every read result fit
its request: main reads return at most `header_buffer` bytes, and each
supplementary straddle read returns exactly the `i + 4 - buf.len()` bytes the
code asked for (the code uses the whole zero-initialized `buf_temp` buffer
regardless of how many bytes the read actually delivered, so a shorter result
pads the accumulated header with zeros).  The flag is instrumentation only:
the first component is the embedding of the source loop. -/
def readHeaderLoop (hs : HttpSettingsL) (header : List Nat) :
    List (List Nat) → FramerResult × Bool
  | [] => (.diverged, true)
  | chunk :: rest_stream =>
    let length := min chunk.length hs.header_buffer
    let buf := chunk.take hs.header_buffer
    let vc := decide (chunk.length ≤ hs.header_buffer)
    if header.length + length > hs.max_header_size then
      (.fail "Max header size exceeded", vc)
    else
      match scanChunk buf with
      | .found i => (.ok (header ++ buf.take (i+4)) (buf.drop (i+4)), vc)
      | .nomark =>
        let rv := readHeaderLoop hs (header ++ buf) rest_stream
        (rv.1, vc && rv.2)
      | .straddle i =>
        match rest_stream with
        | [] => (.diverged, vc)
        | chunk2 :: rest2 =>
          let k := i + 4 - buf.length
          let buf_temp := chunk2.take k ++ List.replicate (k - min k chunk2.length) 0
          let vc2 := vc && decide (chunk2.length = k)
          let buf2 := buf ++ buf_temp
          if buf2.getD (i+1) 0 = 10 ∧ buf2.getD (i+2) 0 = 13 ∧ buf2.getD (i+3) 0 = 10 then
            (.ok (header ++ buf2) [], vc2)
          else
            let rv := readHeaderLoop hs (header ++ buf2) rest2
            (rv.1, vc2 && rv.2)

/-- Result of `read_header`: decoded header text plus leftover body bytes. -/
inductive ReadHeaderResult
  | ok (header : Str) (rest : List Nat)
  | fail (msg : String)
  | diverged
deriving DecidableEq

/-- `read_header` (conn.rs lines 76-121): run the framing loop, then decode
the accumulated header as UTF-8 text. -/
def read_header (hs : HttpSettingsL) (stream : List (List Nat)) : ReadHeaderResult :=
  match (readHeaderLoop hs [] stream).1 with
  | .ok header rest =>
    match asciiDecode header with
    | some s => .ok s rest
    | none => .fail "invalid utf-8 in header"
  | .fail m => .fail m
  | .diverged => .diverged

/-!
General lemmas about the embedded operations.
-/

theorem splitChar_ne_nil (c : Char) (s : Str) : splitChar c s ≠ [] := by
  cases s with
  | nil => simp [splitChar]
  | cons x t =>
    simp only [splitChar]
    split
    · simp
    · split <;> simp

theorem splitnChar_ne_nil (n : Nat) (c : Char) (s : Str) : splitnChar n c s ≠ [] := by
  simp only [splitnChar]
  split
  · exact splitChar_ne_nil c s
  · simp

theorem splitChar_not_mem (c : Char) (s : Str) (h : c ∉ s) : splitChar c s = [s] := by
  induction s with
  | nil => rfl
  | cons x t ih =>
    simp only [List.mem_cons, not_or] at h
    have hx : ¬(x = c) := fun hx => h.1 hx.symm
    simp only [splitChar, if_neg hx, ih h.2]

theorem char_toNat_ofNat (n : Nat) (h : n < 128) : (Char.ofNat n).toNat = n := by
  have hv : Nat.isValidChar n := Or.inl (by omega)
  rw [Char.ofNat, dif_pos hv]
  rfl

theorem asciiEncode_decode : ∀ (b : List Nat) (s : Str), asciiDecode b = some s → asciiEncode s = b := by
  intro b
  induction b with
  | nil =>
    intro s hs
    simp only [asciiDecode, Option.some.injEq] at hs
    simp [← hs, asciiEncode]
  | cons n t ih =>
    intro s hs
    simp only [asciiDecode] at hs
    by_cases hn : n < 128
    · rw [if_pos hn] at hs
      rcases hmt : asciiDecode t with _ | s'
      · rw [hmt] at hs; simp at hs
      · rw [hmt] at hs
        simp only [Option.some.injEq] at hs
        subst hs
        simp only [asciiEncode, List.map_cons]
        rw [char_toNat_ofNat n hn]
        have := ih s' hmt
        simp only [asciiEncode] at this
        rw [this]
    · rw [if_neg hn] at hs; simp at hs

theorem parseParametersGo_ok :
    ∀ (segs : List Str) (params : List (Str × Str)),
      ∃ m, parseParametersGo params segs = .ok m := by
  intro segs
  induction segs with
  | nil => intro params; exact ⟨params, rfl⟩
  | cons p t ih =>
    intro params
    rcases hp : splitnChar 2 '=' p with _ | ⟨key, rest⟩
    · exact absurd hp (splitnChar_ne_nil 2 '=' p)
    · simp only [parseParametersGo, hp]
      exact ih _

/-!
Claim theorems.
-/

/-- Claim C10: the key=value decoder `parse_parameters` succeeds on every
input string; its `MalformedUrlEncoded` ("broken x-www-form-urlencoded
parameters") branch is unreachable because splitting a segment on `=`
always yields a first element. -/
theorem parse_parameters_total (raw : Str) : ∃ m, parse_parameters raw = .ok m :=
  parseParametersGo_ok (splitChar '&' raw) []

/-- Claim C9: `parse_parameters` applied to the empty string yields the
single-entry map `{"": ""}`; a URL token without `?` leaves the raw query
empty (its `splitn(2, '?')` is just the token itself), so a parsed request
whose URL has no query part gets query params `{"": ""}` — as the concrete
`GET / HTTP/1.1` request confirms end to end. -/
theorem parse_parameters_empty_entry :
    (parse_parameters [] = .ok [(([] : Str), ([] : Str))])
    ∧ (∀ u : Str, '?' ∉ u → splitnChar 2 '?' u = [u])
    ∧ (∃ r, HttpRequestL.fromRaw "GET / HTTP/1.1\r\nhost: x\r\n\r\n".data [] []
        HttpSettingsL.new = .ok r ∧ r.get = [([], [])]) := by
  refine ⟨by decide, ?_, ?_⟩
  · intro u hu
    simp only [splitnChar, splitChar_not_mem '?' u hu]
    simp
  · exact ⟨⟨.GET, "/".data, [("host".data, "x".data)], [([], [])], [([], [])], []⟩,
      by decide, rfl⟩

/-- Witness for C9: the no-`?` URL token case at a concrete input. -/
theorem parse_parameters_empty_entry_witness :
    splitnChar 2 '?' "/index".data = ["/index".data] :=
  parse_parameters_empty_entry.2.1 "/index".data (by decide)

set_option maxRecDepth 4096 in
/-- Claim C8: a two-field multipart body with boundary `XYZ`, field `a` with
value `1` and field `b` with value `hello world`, decodes to exactly the map
`{"a": "1", "b": "hello world"}`. -/
theorem multipart_two_fields :
    parse_post_upload
      "--XYZ\r\nContent-Disposition: form-data; name=\"a\"\r\n\r\n1\r\n--XYZ\r\nContent-Disposition: form-data; name=\"b\"\r\n\r\nhello world\r\n--XYZ--\r\n".data
      "XYZ".data =
    .ok [("a".data, "1".data), ("b".data, "hello world".data)] := by decide

/-- Claim C7: with `body_read_attempts = 3` and a declared content length
larger than the bytes received, a transport returning 0 new bytes on every
body read makes the parser fail `BodyReadStalled` ("Read body failed too
often") on exactly the 4th insufficient read: after the full request parse
with four empty reads the failure fires (whatever data would follow), while
after only three empty reads the loop is still waiting on a further read. -/
theorem body_stall_fourth_read :
    (∀ t : List (List Nat),
      HttpRequestL.fromRaw "POST / HTTP/1.1\r\ncontent-length: 5\r\n\r\n".data []
        ([] :: [] :: [] :: [] :: t) HttpSettingsL.new = .fail "Read body failed too often")
    ∧ readBody HttpSettingsL.new [] 5 0 [[], [], []] = .diverged :=
  ⟨fun _ => rfl, by decide⟩

/-- Claim C4 counterexample: parsing the scenario request
`GET /?file=test.txt HTTP/1.1` + `host: x` with no body yields
`post_params = {"": ""}`, a non-empty map, not the empty map the claim
states (the parser runs the key=value decoder on the empty body even for
GET requests). -/
theorem request_get_scenario_counterexample :
    HttpRequestL.fromRaw "GET /?file=test.txt HTTP/1.1\r\nhost: x\r\n\r\n".data [] []
      HttpSettingsL.new =
      .ok ⟨.GET, "/".data, [("host".data, "x".data)], [("file".data, "test.txt".data)],
        [([], [])], []⟩
    ∧ ([(([] : Str), ([] : Str))] : List (Str × Str)) ≠ [] := by decide

/-- Claim C4 (amended): the scenario request parses to method GET, url `/`,
query params `{"file": "test.txt"}` and empty body, but with
`post_params = {"": ""}`: POST-body decoding is attempted regardless of the
method, and the key=value decoder on the empty body yields the single empty
entry. -/
theorem request_get_scenario_amended :
    ∃ r, HttpRequestL.fromRaw "GET /?file=test.txt HTTP/1.1\r\nhost: x\r\n\r\n".data [] []
        HttpSettingsL.new = .ok r
      ∧ r.method = .GET ∧ r.url = "/".data
      ∧ r.get = [("file".data, "test.txt".data)]
      ∧ r.post = [([], [])] ∧ r.body = [] :=
  ⟨⟨.GET, "/".data, [("host".data, "x".data)], [("file".data, "test.txt".data)],
    [([], [])], []⟩, by decide, rfl, rfl, rfl, rfl, rfl⟩

/-- Claim C2: every response built by `respond` from a payload of length N
carries a `content-length` header whose value is `N + 2`, and the byte
sequence ends with exactly one `\r\n` appended immediately after the payload
bytes. -/
theorem respond_content_length_spec (content : ResponseContent) (content_type : Str)
    (data : ResponseData) :
    ∃ pre, respond content content_type data =
      pre ++ strBytes "content-length: " ++
      strBytes (toString ((contentBytes content).length + 2)) ++ strBytes "\r\n\r\n" ++
      contentBytes content ++ strBytes "\r\n" := by
  refine ⟨asciiEncode
    ("HTTP/1.1 ".data ++ "200 OK".data ++ "\r\nserver: ltheinrich.de/lhi\r\ncontent-type: ".data ++
      content_type ++ "; charset=utf-8".data ++ respondHeaders data.headers) ++
    strBytes "\r\n", ?_⟩
  cases content <;>
    simp [respond, set_content_length, contentBytes, List.append_assoc]

/-- Claim C1 (code bug): `respond` shadows the caller's status with a local
`let status = "200 OK"`: the output is identical whatever `data.status`
holds, and a response built with status `303 See Other` still starts with
the status line `HTTP/1.1 200 OK`, not `HTTP/1.1 303 See Other`. -/
theorem respond_ignores_status :
    (∀ (content : ResponseContent) (content_type : Str) (s1 s2 : Str) (h : List (Str × Str)),
      respond content content_type ⟨s1, h⟩ = respond content content_type ⟨s2, h⟩)
    ∧ strBytes "HTTP/1.1 200 OK\r\n" <+:
        respond (.Text "x".data) "text/html".data (ResponseData.new.set_status "303 See Other".data)
    ∧ ¬ strBytes "HTTP/1.1 303" <+:
        respond (.Text "x".data) "text/html".data (ResponseData.new.set_status "303 See Other".data) :=
  ⟨fun _ _ _ _ _ => rfl, by decide, by decide⟩

theorem scanChunkGo_straddle :
    ∀ (l : List Nat) (j i : Nat), scanChunkGo j l = .straddle i →
      j ≤ i ∧ i < j + l.length ∧ j + l.length ≤ i + 3 ∧ l.getD (i - j) 0 = 13 := by
  intro l
  induction l with
  | nil => intro j i h; simp [scanChunkGo] at h
  | cons c rest ih =>
    intro j i h
    by_cases hc : c = 13
    · rcases rest with _ | ⟨n1, rest1⟩
      · simp only [scanChunkGo, if_pos hc, ScanResult.straddle.injEq] at h
        subst h
        simp [hc]
      · rcases rest1 with _ | ⟨n2, rest2⟩
        · simp only [scanChunkGo, if_pos hc, ScanResult.straddle.injEq] at h
          subst h
          simp [hc]
        · rcases rest2 with _ | ⟨n3, rest3⟩
          · simp only [scanChunkGo, if_pos hc, ScanResult.straddle.injEq] at h
            subst h
            simp [hc]
          · simp only [scanChunkGo, if_pos hc] at h
            split at h
            · exact absurd h (by simp)
            · obtain ⟨h1, h2, h3, h4⟩ := ih (j+1) i h
              simp only [List.length_cons] at h2 h3 ⊢
              refine ⟨by omega, by omega, by omega, ?_⟩
              have hij : i - j = (i - (j + 1)) + 1 := by omega
              rw [hij, List.getD_cons_succ]
              exact h4
    · simp only [scanChunkGo, if_neg hc] at h
      obtain ⟨h1, h2, h3, h4⟩ := ih (j+1) i h
      simp only [List.length_cons] at h2 h3 ⊢
      refine ⟨by omega, by omega, by omega, ?_⟩
      have hij : i - j = (i - (j + 1)) + 1 := by omega
      rw [hij, List.getD_cons_succ]
      exact h4

theorem scanChunkGo_found :
    ∀ (l : List Nat) (j i : Nat), scanChunkGo j l = .found i →
      j ≤ i ∧ ∃ pre post, l = pre ++ [13, 10, 13, 10] ++ post ∧ pre.length = i - j := by
  intro l
  induction l with
  | nil => intro j i h; simp [scanChunkGo] at h
  | cons c rest ih =>
    intro j i h
    by_cases hc : c = 13
    · rcases rest with _ | ⟨n1, rest1⟩
      · simp [scanChunkGo, if_pos hc] at h
      · rcases rest1 with _ | ⟨n2, rest2⟩
        · simp [scanChunkGo, if_pos hc] at h
        · rcases rest2 with _ | ⟨n3, rest3⟩
          · simp [scanChunkGo, if_pos hc] at h
          · simp only [scanChunkGo, if_pos hc] at h
            split at h
            · rename_i hm
              simp only [ScanResult.found.injEq] at h
              subst h
              obtain ⟨h1, h2, h3⟩ := hm
              subst hc h1 h2 h3
              exact ⟨Nat.le_refl _, [], rest3, rfl, by simp⟩
            · obtain ⟨hji, pre, post, hl, hlen⟩ := ih (j+1) i h
              refine ⟨by omega, c :: pre, post, by simp [hl], ?_⟩
              simp only [List.length_cons]
              omega
    · simp only [scanChunkGo, if_neg hc] at h
      obtain ⟨hji, pre, post, hl, hlen⟩ := ih (j+1) i h
      refine ⟨by omega, c :: pre, post, by simp [hl], ?_⟩
      simp only [List.length_cons]
      omega

/-- Claim C6 counterexample: a transport delivering a zero-length read before
the terminator, followed by `G\r\n\r\nB`, does not make `read_header` fail
with a transport error as the claim states: the zero-length read is simply
skipped and the framer succeeds on the following chunk. -/
theorem zero_read_success_counterexample :
    read_header HttpSettingsL.new [[], [71, 13, 10, 13, 10, 66]] =
      .ok ['G', '\r', '\n', '\r', '\n'] [66] := by decide

/-- Claim C6 (amended): a zero-length read from the transport is a no-op for
the framing loop of `read_header` (provided the accumulated header is still
within the size limit): the empty chunk is scanned without effect and the
loop simply issues the next read, neither failing nor succeeding on it; a
peer that keeps returning zero-length reads makes the loop run forever. -/
theorem zero_read_skip (hs : HttpSettingsL) (header : List Nat) (t : List (List Nat))
    (h : header.length ≤ hs.max_header_size) :
    readHeaderLoop hs header ([] :: t) = readHeaderLoop hs header t := by
  simp only [readHeaderLoop, List.length_nil, List.take_nil, Nat.zero_min, Nat.add_zero]
  rw [if_neg (Nat.not_lt.mpr h)]
  simp [scanChunk, scanChunkGo, decide_eq_true (Nat.zero_le _)]

/-- Witness for C6's amended theorem at a concrete transport. -/
theorem zero_read_skip_witness :
    readHeaderLoop HttpSettingsL.new [] ([] :: [[13, 10, 13, 10]]) =
      readHeaderLoop HttpSettingsL.new [] [[13, 10, 13, 10]] :=
  zero_read_skip HttpSettingsL.new [] [[13, 10, 13, 10]] (by decide)

theorem readHeaderLoop_ok_length (hs : HttpSettingsL) :
    ∀ (n : Nat) (trace : List (List Nat)) (header hdr rest : List Nat) (v : Bool),
      trace.length ≤ n →
      readHeaderLoop hs header trace = (.ok hdr rest, v) →
      hdr.length ≤ hs.max_header_size + 3 := by
  intro n
  induction n with
  | zero =>
    intro trace header hdr rest v hlen heq
    have h0 := List.eq_nil_of_length_eq_zero (Nat.le_zero.mp hlen)
    subst h0
    simp [readHeaderLoop] at heq
  | succ n ih =>
    intro trace header hdr rest v hlen heq
    match trace with
    | [] => simp [readHeaderLoop] at heq
    | chunk :: rest_stream =>
      rw [readHeaderLoop] at heq
      by_cases hg : header.length + min chunk.length hs.header_buffer > hs.max_header_size
      · rw [if_pos hg] at heq
        exact absurd heq (by simp)
      · rw [if_neg hg] at heq
        rcases hscan : scanChunk (chunk.take hs.header_buffer) with i | i | _
        · rw [hscan] at heq
          simp only [Prod.mk.injEq, FramerResult.ok.injEq] at heq
          obtain ⟨⟨hhdr, _⟩, _⟩ := heq
          subst hhdr
          simp only [List.length_append, List.length_take]
          omega
        · rw [hscan] at heq
          obtain ⟨hi0, hilt, hile, _⟩ := scanChunkGo_straddle _ 0 i hscan
          simp only [Nat.zero_add] at hilt hile
          match rest_stream with
          | [] => simp at heq
          | chunk2 :: rest2 =>
            simp only at heq
            split at heq
            · simp only [Prod.mk.injEq, FramerResult.ok.injEq] at heq
              obtain ⟨⟨hhdr, _⟩, _⟩ := heq
              subst hhdr
              simp only [List.length_append, List.length_take, List.length_replicate,
                List.length_take] at *
              omega
            · simp only [Prod.mk.injEq] at heq
              obtain ⟨h1, h2⟩ := heq
              have hpair :
                  readHeaderLoop hs
                    (header ++
                      (chunk.take hs.header_buffer ++
                        (chunk2.take (i + 4 - (chunk.take hs.header_buffer).length) ++
                          List.replicate
                            (i + 4 - (chunk.take hs.header_buffer).length -
                              min (i + 4 - (chunk.take hs.header_buffer).length) chunk2.length) 0)))
                    rest2 =
                  (.ok hdr rest,
                    (readHeaderLoop hs
                      (header ++
                        (chunk.take hs.header_buffer ++
                          (chunk2.take (i + 4 - (chunk.take hs.header_buffer).length) ++
                            List.replicate
                              (i + 4 - (chunk.take hs.header_buffer).length -
                                min (i + 4 - (chunk.take hs.header_buffer).length) chunk2.length) 0)))
                      rest2).2) := by
                rw [← h1]
              have hlen2 : rest2.length ≤ n := by
                simp only [List.length_cons] at hlen
                omega
              exact ih rest2 _ hdr rest _ hlen2 hpair
        · rw [hscan] at heq
          simp only [Prod.mk.injEq] at heq
          obtain ⟨h1, h2⟩ := heq
          have hpair :
              readHeaderLoop hs (header ++ chunk.take hs.header_buffer) rest_stream =
              (.ok hdr rest, (readHeaderLoop hs (header ++ chunk.take hs.header_buffer) rest_stream).2) := by
            rw [← h1]
          have hlen2 : rest_stream.length ≤ n := by
            simp only [List.length_cons] at hlen
            omega
          exact ih rest_stream _ hdr rest _ hlen2 hpair

/-- Claim C5 counterexample: with `max_header_size = 4`, the transport
delivering `ab\rc` then `xy` makes the supplementary straddle read push the
accumulated header to 6 bytes — past the limit, before any marker (the
delivered bytes contain none) — yet the framing loop does not fail with the
size error: it issues a further read (here: waits on an exhausted trace). -/
theorem header_limit_straddle_counterexample :
    readHeaderLoop ⟨4, 10485760, 4, 8192, 3, 3⟩ [] [[97, 98, 13, 99], [120, 121]] =
      (.diverged, true)
    ∧ ¬ [13, 10, 13, 10] <:+: [97, 98, 13, 99, 120, 121]
    ∧ (4 : Nat) < [97, 98, 13, 99, 120, 121].length := by
  refine ⟨by decide, ?_, by decide⟩
  decide

/-- Claim C5 (amended): before scanning each chunk the framing loop fails
with `HeaderTooLarge` ("Max header size exceeded") whenever the accumulated
header plus the incoming read length would exceed `max_header_size` — the
failure is immediate and independent of any later reads; consequently any
successful run returns a header of at most `max_header_size + 3` bytes.  The
three-byte slack exists because a supplementary straddle read appends up to
3 unchecked bytes, and after such an overflow the failure is raised only
upon the next main read. -/
theorem header_limit_amended :
    (∀ (hs : HttpSettingsL) (header chunk : List Nat) (t : List (List Nat)),
      hs.max_header_size < header.length + min chunk.length hs.header_buffer →
      (readHeaderLoop hs header (chunk :: t)).1 = .fail "Max header size exceeded")
    ∧ (∀ (hs : HttpSettingsL) (trace : List (List Nat)) (header hdr rest : List Nat) (v : Bool),
      readHeaderLoop hs header trace = (.ok hdr rest, v) →
      hdr.length ≤ hs.max_header_size + 3) := by
  constructor
  · intro hs header chunk t hg
    rw [readHeaderLoop, if_pos hg]
  · intro hs trace header hdr rest v heq
    exact readHeaderLoop_ok_length hs trace.length trace header hdr rest v (Nat.le_refl _) heq

/-- Witness for C5's amended theorem: a read crossing the limit fails at
once, and a concrete successful run obeys the size bound. -/
theorem header_limit_amended_witness :
    (readHeaderLoop ⟨4, 10485760, 4, 8192, 3, 3⟩ [0, 0, 0] [[1, 1, 1], [2]]).1 =
      .fail "Max header size exceeded"
    ∧ ([71, 13, 10, 13, 10] : List Nat).length ≤ HttpSettingsL.new.max_header_size + 3 :=
  ⟨header_limit_amended.1 ⟨4, 10485760, 4, 8192, 3, 3⟩ [0, 0, 0] [1, 1, 1] [[2]] (by decide),
   header_limit_amended.2 HttpSettingsL.new [[71, 13, 10, 13, 10, 66]] [] [71, 13, 10, 13, 10]
     [66] true (by decide)⟩

theorem eq_take_append_marker :
    ∀ (i : Nat) (l : List Nat), l.length = i + 4 →
      l.getD i 0 = 13 → l.getD (i+1) 0 = 10 → l.getD (i+2) 0 = 13 → l.getD (i+3) 0 = 10 →
      l = l.take i ++ [13, 10, 13, 10] := by
  intro i
  induction i with
  | zero =>
    intro l hlen h0 h1 h2 h3
    rcases l with _ | ⟨a, _ | ⟨b, _ | ⟨c, _ | ⟨d, tl⟩⟩⟩⟩ <;> simp at hlen
    rcases tl with _ | _
    · simp [List.getD] at h0 h1 h2 h3
      subst h0 h1 h2 h3
      rfl
    · simp at hlen
  | succ i ih =>
    intro l hlen h0 h1 h2 h3
    rcases l with _ | ⟨a, t⟩
    · simp at hlen
    · simp only [List.length_cons] at hlen
      rw [List.getD_cons_succ] at h0 h1 h2 h3
      have ht := ih t (by omega) h0 h1 h2 h3
      rw [List.take_succ_cons]
      calc a :: t = a :: (t.take i ++ [13, 10, 13, 10]) := by rw [← ht]
        _ = a :: t.take i ++ [13, 10, 13, 10] := by simp

theorem prefix_append_shared (c : List Nat) {d f : List Nat} (h : d <+: f) :
    c ++ d <+: c ++ f := by
  obtain ⟨t, ht⟩ := h
  exact ⟨t, by rw [List.append_assoc, ht]⟩

theorem readHeaderLoop_ok_spec (hs : HttpSettingsL) :
    ∀ (n : Nat) (trace : List (List Nat)) (header hdr rest : List Nat),
      trace.length ≤ n →
      readHeaderLoop hs header trace = (.ok hdr rest, true) →
      (∃ d, hdr ++ rest = header ++ d ∧ d <+: trace.flatten) ∧ [13, 10, 13, 10] <:+ hdr := by
  intro n
  induction n with
  | zero =>
    intro trace header hdr rest hlen heq
    have h0 := List.eq_nil_of_length_eq_zero (Nat.le_zero.mp hlen)
    subst h0
    simp [readHeaderLoop] at heq
  | succ n ih =>
    intro trace header hdr rest hlen heq
    match trace with
    | [] => simp [readHeaderLoop] at heq
    | chunk :: rest_stream =>
      rw [readHeaderLoop] at heq
      by_cases hg : header.length + min chunk.length hs.header_buffer > hs.max_header_size
      · rw [if_pos hg] at heq
        exact absurd heq (by simp)
      · rw [if_neg hg] at heq
        rcases hscan : scanChunk (chunk.take hs.header_buffer) with i | i | _
        · -- marker found inside the chunk
          rw [hscan] at heq
          simp only [Prod.mk.injEq, FramerResult.ok.injEq] at heq
          obtain ⟨⟨hhdr, hrest⟩, hvc⟩ := heq
          have hcl : chunk.length ≤ hs.header_buffer := of_decide_eq_true hvc
          rw [List.take_of_length_le hcl] at hscan hhdr hrest
          obtain ⟨-, pre, post, hbuf, hpre⟩ := scanChunkGo_found chunk 0 i hscan
          have hpre' : pre.length = i := by omega
          have h4 : (([13, 10, 13, 10] : List Nat) ++ post).take 4 = [13, 10, 13, 10] := by
            simp
          have htake : chunk.take (i + 4) = pre ++ [13, 10, 13, 10] := by
            rw [hbuf, show i + 4 = pre.length + 4 by omega, List.append_assoc,
              List.take_append, h4]
          refine ⟨⟨chunk, ?_, ?_⟩, ?_⟩
          · rw [← hhdr, ← hrest, List.append_assoc, List.take_append_drop]
          · rw [List.flatten_cons]
            exact List.prefix_append chunk rest_stream.flatten
          · rw [← hhdr, htake]
            exact ⟨header ++ pre, by simp [List.append_assoc]⟩
        · -- marker straddles the chunk end: supplementary read
          rw [hscan] at heq
          obtain ⟨-, hilt, hile, h13⟩ := scanChunkGo_straddle _ 0 i hscan
          simp only [Nat.zero_add, Nat.sub_zero] at hilt hile h13
          match rest_stream with
          | [] => simp at heq
          | chunk2 :: rest2 =>
            simp only at heq
            split at heq
            · rename_i hm
              simp only [Prod.mk.injEq, FramerResult.ok.injEq] at heq
              obtain ⟨⟨hhdr, hrest⟩, hvc2⟩ := heq
              rw [Bool.and_eq_true] at hvc2
              obtain ⟨hvc, hck⟩ := hvc2
              have hcl : chunk.length ≤ hs.header_buffer := of_decide_eq_true hvc
              have hc2 := of_decide_eq_true hck
              rw [List.take_of_length_le hcl] at hm hhdr hc2 hilt hile h13
              have hk : chunk2.take (i + 4 - chunk.length) = chunk2 :=
                List.take_of_length_le (le_of_eq hc2)
              have hrep : i + 4 - chunk.length - min (i + 4 - chunk.length) chunk2.length = 0 := by
                omega
              rw [hk, hrep, List.replicate_zero, List.append_nil] at hm hhdr
              have hlen2 : (chunk ++ chunk2).length = i + 4 := by
                simp only [List.length_append]
                omega
              have h13' : (chunk ++ chunk2).getD i 0 = 13 := by
                rw [List.getD_append _ _ 0 i hilt]
                exact h13
              obtain ⟨hm1, hm2, hm3⟩ := hm
              have hmarker := eq_take_append_marker i (chunk ++ chunk2) hlen2 h13' hm1 hm2 hm3
              refine ⟨⟨chunk ++ chunk2, ?_, ?_⟩, ?_⟩
              · rw [← hhdr, ← hrest, List.append_nil]
              · rw [List.flatten_cons, List.flatten_cons]
                exact ⟨rest2.flatten, by simp [List.append_assoc]⟩
              · rw [← hhdr, hmarker]
                exact ⟨header ++ (chunk ++ chunk2).take i, by simp [List.append_assoc]⟩
            · simp only [Prod.mk.injEq] at heq
              obtain ⟨h1, h2⟩ := heq
              rw [Bool.and_eq_true] at h2
              obtain ⟨hvc2, hv2⟩ := h2
              rw [Bool.and_eq_true] at hvc2
              obtain ⟨hvc, hck⟩ := hvc2
              have hcl : chunk.length ≤ hs.header_buffer := of_decide_eq_true hvc
              have hc2 := of_decide_eq_true hck
              rw [List.take_of_length_le hcl] at h1 hv2 hc2
              have hk : chunk2.take (i + 4 - chunk.length) = chunk2 :=
                List.take_of_length_le (le_of_eq hc2)
              have hrep : i + 4 - chunk.length - min (i + 4 - chunk.length) chunk2.length = 0 := by
                omega
              rw [hk, hrep, List.replicate_zero, List.append_nil] at h1 hv2
              have hpair : readHeaderLoop hs (header ++ (chunk ++ chunk2)) rest2 =
                  (.ok hdr rest, true) := Prod.ext h1 hv2
              have hlen2 : rest2.length ≤ n := by
                simp only [List.length_cons] at hlen
                omega
              obtain ⟨⟨d, hd, hdp⟩, hsuf⟩ :=
                ih rest2 (header ++ (chunk ++ chunk2)) hdr rest hlen2 hpair
              refine ⟨⟨(chunk ++ chunk2) ++ d, ?_, ?_⟩, hsuf⟩
              · rw [hd, List.append_assoc]
              · rw [List.flatten_cons, List.flatten_cons, ← List.append_assoc]
                exact prefix_append_shared (chunk ++ chunk2) hdp
        · -- no marker in this chunk
          rw [hscan] at heq
          simp only [Prod.mk.injEq] at heq
          obtain ⟨h1, h2⟩ := heq
          rw [Bool.and_eq_true] at h2
          obtain ⟨hvc, hv2⟩ := h2
          have hcl : chunk.length ≤ hs.header_buffer := of_decide_eq_true hvc
          rw [List.take_of_length_le hcl] at h1 hv2
          have hpair : readHeaderLoop hs (header ++ chunk) rest_stream =
              (.ok hdr rest, true) := Prod.ext h1 hv2
          have hlen2 : rest_stream.length ≤ n := by
            simp only [List.length_cons] at hlen
            omega
          obtain ⟨⟨d, hd, hdp⟩, hsuf⟩ := ih rest_stream (header ++ chunk) hdr rest hlen2 hpair
          refine ⟨⟨chunk ++ d, ?_, ?_⟩, hsuf⟩
          · rw [hd, List.append_assoc]
          · rw [List.flatten_cons]
            exact prefix_append_shared chunk hdp

/-- Claim C3 counterexample: the transport delivering `A\r\r`, then `\n\r`,
then `\nXY` yields the byte sequence `A\r\r\n\r\nXY`, which contains the
marker `\r\n\r\n` (within the size limit) — yet `read_header` returns no
split: the supplementary straddle read checks only one 4-byte window, and on
a mismatch the appended bytes are never rescanned, so the marker is missed
and the framer keeps waiting for more data. -/
theorem read_header_misses_straddled_marker :
    read_header HttpSettingsL.new [[65, 13, 13], [10, 13], [10, 88, 89]] = .diverged
    ∧ [13, 10, 13, 10] <:+: ([[65, 13, 13], [10, 13], [10, 88, 89]] : List (List Nat)).flatten
    ∧ ([[65, 13, 13], [10, 13], [10, 88, 89]] : List (List Nat)).flatten.length ≤
        HttpSettingsL.new.max_header_size :=
  ⟨by decide, by decide, by decide⟩

/-- Claim C3 (amended): whenever `read_header` does return a pair
(header text, leftover) — and every transport read fit its request, with
the supplementary straddle reads delivered in full — the header's bytes
concatenated with the leftover form a prefix of the delivered byte sequence,
and the marker `\r\n\r\n` is exactly the final four bytes of the header text
(hence the prefix extends at least to the first marker occurrence);
but success is not guaranteed for every delivery containing the marker. -/
theorem read_header_split_spec (hs : HttpSettingsL) (trace : List (List Nat)) (s : Str)
    (rest : List Nat) (hok : read_header hs trace = .ok s rest)
    (hvalid : (readHeaderLoop hs [] trace).2 = true) :
    asciiEncode s ++ rest <+: trace.flatten ∧ [13, 10, 13, 10] <:+ asciiEncode s := by
  unfold read_header at hok
  rcases hL : (readHeaderLoop hs [] trace).1 with ⟨hdrB, restB⟩ | m | _
  · rw [hL] at hok
    simp only at hok
    rcases hD : asciiDecode hdrB with _ | s'
    · rw [hD] at hok
      simp at hok
    · rw [hD] at hok
      simp only [ReadHeaderResult.ok.injEq] at hok
      obtain ⟨hs', hrest⟩ := hok
      subst hrest
      have henc : asciiEncode s = hdrB := by
        rw [← hs']
        exact asciiEncode_decode hdrB s' hD
      have hpair : readHeaderLoop hs [] trace = (.ok hdrB restB, true) := Prod.ext hL hvalid
      obtain ⟨⟨d, hd, hdp⟩, hsuf⟩ :=
        readHeaderLoop_ok_spec hs trace.length trace [] hdrB restB (Nat.le_refl _) hpair
      rw [List.nil_append] at hd
      constructor
      · rw [henc, hd]
        exact hdp
      · rw [henc]
        exact hsuf
  · rw [hL] at hok
    simp at hok
  · rw [hL] at hok
    simp at hok

/-- Witness for C3's amended theorem at a concrete one-chunk transport. -/
theorem read_header_split_spec_witness :
    asciiEncode ['G', '\r', '\n', '\r', '\n'] ++ [66] <+:
      ([[71, 13, 10, 13, 10, 66]] : List (List Nat)).flatten
    ∧ [13, 10, 13, 10] <:+ asciiEncode ['G', '\r', '\n', '\r', '\n'] :=
  read_header_split_spec HttpSettingsL.new [[71, 13, 10, 13, 10, 66]]
    ['G', '\r', '\n', '\r', '\n'] [66] (by decide) (by decide)
